import Mathlib

/-!
Formal model of the quiz-generation backend (`backend/main.py`).

The Python source is shallowly embedded: pure helpers become Lean functions on
`String` / `List Char`, Python `int` counters become `Int`, stateful methods of
`RateLimiter` become explicit state-passing functions parameterised by the
current minute/day (so "window rollover" is an explicit input), and the
HTTP / database collaborators are parameters of the embedded request handlers.
Strings are modelled at the character level; Python's Unicode-aware case
folding and whitespace classes are modelled on their ASCII / Latin-1 portion,
which covers every string the development evaluates.
-/

/-! ## Character and string utilities (`_ascii_quotes`, `_norm_text`, `str.strip`, `str.lower`) -/

/-- Python `str.lower` restricted to ASCII letters (all concrete strings in this
development are ASCII). -/
def lowerChar (c : Char) : Char :=
  if 'A' ≤ c ∧ c ≤ 'Z' then Char.ofNat (c.toNat + 32) else c

/-- Python whitespace as recognised by `str.strip()` and the regex class `\s`
on the Latin-1 range: space, `\t`, `\n`, `\r`, `\v`, `\f`, the separator
controls `\x1c`–`\x1f`, NEL `\x85` and NBSP `\xa0`. -/
def pyWsChar (c : Char) : Bool :=
  c = ' ' || c = '\t' || c = '\n' || c = '\r' || c = '\u000B' || c = '\u000C' ||
  c = '\u001C' || c = '\u001D' || c = '\u001E' || c = '\u001F' ||
  c = '\u0085' || c = '\u00A0'

/-- Strip characters satisfying `p` from both ends of a character list
(Python `str.strip`). -/
def stripBoth (p : Char → Bool) (l : List Char) : List Char :=
  ((l.dropWhile p).reverse.dropWhile p).reverse

/-- Python `str.strip()` (no argument): strip whitespace from both ends. -/
def pyStrip (l : List Char) : List Char := stripBoth pyWsChar l

/-- One character of `_ascii_quotes`: curly double/single quotes become ASCII
quotes (the Python code uses four `str.replace` calls on single characters). -/
def asciiQuoteChar (c : Char) : Char :=
  if c = '\u201C' ∨ c = '\u201D' then '"'
  else if c = '\u2018' ∨ c = '\u2019' then '\'' else c

/-- Replace each maximal whitespace run by a single space
(the regex substitution `re.sub(r"\s+", " ", s)`).  The boolean argument
records whether the previous character belonged to a whitespace run. -/
def collapseWsAux : List Char → Bool → List Char
  | [], _ => []
  | c :: rest, prevWs =>
    if pyWsChar c then
      if prevWs then collapseWsAux rest true else ' ' :: collapseWsAux rest true
    else c :: collapseWsAux rest false

/-- Python `_norm_text`: ASCII-fy curly quotes, collapse whitespace runs to a
single space, strip both ends. -/
def normText (s : String) : String :=
  String.mk (pyStrip (collapseWsAux (s.data.map asciiQuoteChar) false))

/-! ## `RateLimiter` (`backend/main.py`, lines 256–326)

The Python object carries four limits, two window epochs, four usage counters
and a per-model cooldown map.  Methods that read `time.time()` become
functions taking the current minute/day index; the cooldown map (Python
`dict` of floats) is an association list with integer expiry timestamps
(no claim depends on sub-second values). -/

structure RateLimiter where
  rpm_limit : Int
  rpd_limit : Int
  tpm_limit : Int
  tpd_limit : Int
  minute_epoch : Int
  day_epoch : Int
  rpm_used : Int
  tpm_used : Int
  rpd_used : Int
  tpd_used : Int
  model_cooldown_until : List (String × Int)
deriving DecidableEq

/-- Python `RateLimiter._maybe_roll_windows`: reset the minute counters when
the current minute differs from the stored epoch, and independently the day
counters. -/
def maybeRollWindows (nowMin nowDay : Int) (s : RateLimiter) : RateLimiter :=
  let s1 :=
    if nowMin ≠ s.minute_epoch then
      { s with minute_epoch := nowMin, rpm_used := 0, tpm_used := 0 }
    else s
  if nowDay ≠ s1.day_epoch then
    { s1 with day_epoch := nowDay, rpd_used := 0, tpd_used := 0 }
  else s1

/-- Python `RateLimiter.reserve`: roll windows, then pessimistically bump the
request counters by one and the token counters by the estimate. -/
def reserve (nowMin nowDay : Int) (est : Int) (s : RateLimiter) : RateLimiter :=
  let s1 := maybeRollWindows nowMin nowDay s
  { s1 with
    rpm_used := s1.rpm_used + 1
    rpd_used := s1.rpd_used + 1
    tpm_used := s1.tpm_used + est
    tpd_used := s1.tpd_used + est }

/-- Python `RateLimiter.adjust_after_response`: roll windows, then move the
token counters by `actual - est`, floored at zero. -/
def adjustAfterResponse (nowMin nowDay : Int) (est actual : Int)
    (s : RateLimiter) : RateLimiter :=
  let s1 := maybeRollWindows nowMin nowDay s
  let delta := actual - est
  { s1 with
    tpm_used := max 0 (s1.tpm_used + delta)
    tpd_used := max 0 (s1.tpd_used + delta) }

/-- A concrete limiter state used by the witnesses below. -/
def limiterSample : RateLimiter :=
  { rpm_limit := 30, rpd_limit := 1000, tpm_limit := 12000, tpd_limit := 100000
    minute_epoch := 100, day_epoch := 200
    rpm_used := 3, tpm_used := 500, rpd_used := 7, tpd_used := 900
    model_cooldown_until := [("gemma2-9b-it", 50)] }

/-- C4: with no window rollover (the current minute and day equal the stored
epochs), `reserve e` followed by `adjust_after_response e a` leaves each token
counter at `max 0 (pre-reserve value + a)`, for non-negative `e` and `a`. -/
theorem reserve_adjust_net_effect (s : RateLimiter) (nowMin nowDay e a : Int)
    (hmin : nowMin = s.minute_epoch) (hday : nowDay = s.day_epoch)
    (he : 0 ≤ e) (ha : 0 ≤ a) :
    (adjustAfterResponse nowMin nowDay e a (reserve nowMin nowDay e s)).tpm_used
        = max 0 (s.tpm_used + a) ∧
    (adjustAfterResponse nowMin nowDay e a (reserve nowMin nowDay e s)).tpd_used
        = max 0 (s.tpd_used + a) := by
  subst hmin hday
  simp [adjustAfterResponse, reserve, maybeRollWindows]

/-- C4 witness: the net-effect theorem applied at a concrete state with
`e = 5`, `a = 2`. -/
theorem reserve_adjust_net_effect_witness :
    (adjustAfterResponse 100 200 5 2 (reserve 100 200 5 limiterSample)).tpm_used
        = max 0 (limiterSample.tpm_used + 2) ∧
    (adjustAfterResponse 100 200 5 2 (reserve 100 200 5 limiterSample)).tpd_used
        = max 0 (limiterSample.tpd_used + 2) :=
  reserve_adjust_net_effect limiterSample 100 200 5 2 rfl rfl
    (by decide) (by decide)

/-- C9: with no window rollover, `adjust_after_response` changes only the two
token counters: both request counters, all four limits, both window epochs and
the cooldown map are left untouched. -/
theorem adjustAfterResponse_frame (s : RateLimiter) (nowMin nowDay e a : Int)
    (hmin : nowMin = s.minute_epoch) (hday : nowDay = s.day_epoch) :
    (adjustAfterResponse nowMin nowDay e a s).rpm_used = s.rpm_used ∧
    (adjustAfterResponse nowMin nowDay e a s).rpd_used = s.rpd_used ∧
    (adjustAfterResponse nowMin nowDay e a s).rpm_limit = s.rpm_limit ∧
    (adjustAfterResponse nowMin nowDay e a s).rpd_limit = s.rpd_limit ∧
    (adjustAfterResponse nowMin nowDay e a s).tpm_limit = s.tpm_limit ∧
    (adjustAfterResponse nowMin nowDay e a s).tpd_limit = s.tpd_limit ∧
    (adjustAfterResponse nowMin nowDay e a s).minute_epoch = s.minute_epoch ∧
    (adjustAfterResponse nowMin nowDay e a s).day_epoch = s.day_epoch ∧
    (adjustAfterResponse nowMin nowDay e a s).model_cooldown_until
        = s.model_cooldown_until := by
  subst hmin hday
  simp [adjustAfterResponse, maybeRollWindows]

/-- C9 witness: the frame theorem applied at a concrete state. -/
theorem adjustAfterResponse_frame_witness :
    (adjustAfterResponse 100 200 5 9999 limiterSample).rpm_used
        = limiterSample.rpm_used ∧
    (adjustAfterResponse 100 200 5 9999 limiterSample).rpd_used
        = limiterSample.rpd_used ∧
    (adjustAfterResponse 100 200 5 9999 limiterSample).rpm_limit
        = limiterSample.rpm_limit ∧
    (adjustAfterResponse 100 200 5 9999 limiterSample).rpd_limit
        = limiterSample.rpd_limit ∧
    (adjustAfterResponse 100 200 5 9999 limiterSample).tpm_limit
        = limiterSample.tpm_limit ∧
    (adjustAfterResponse 100 200 5 9999 limiterSample).tpd_limit
        = limiterSample.tpd_limit ∧
    (adjustAfterResponse 100 200 5 9999 limiterSample).minute_epoch
        = limiterSample.minute_epoch ∧
    (adjustAfterResponse 100 200 5 9999 limiterSample).day_epoch
        = limiterSample.day_epoch ∧
    (adjustAfterResponse 100 200 5 9999 limiterSample).model_cooldown_until
        = limiterSample.model_cooldown_until :=
  adjustAfterResponse_frame limiterSample 100 200 5 9999 rfl rfl

/-! ## Reconciliation and final count enforcement
(`_merge_trim_to_counts`, `generate_quiz` steps 5–6, lines 652–664 and 784–799)

The validated items themselves are opaque here: the trimming and the final
count check treat them generically, so the bucket element type is a type
parameter. -/

/-- Python `_merge_trim_to_counts`: trim each bucket to its requested count and
concatenate in the fixed type order. -/
def mergeTrimToCounts {α : Type} (mcq sa tf idf ess : List α)
    (needMcq needSa needTf needIdf needEss : Nat) : List α :=
  mcq.take needMcq ++ sa.take needSa ++ tf.take needTf ++
    idf.take needIdf ++ ess.take needEss

/-- Outcome of the `generate-quiz` endpoint after reconciliation: either the
final item array (HTTP 200) or the typed shortfall failure (HTTP 502,
"Model returned fewer valid items than requested"). -/
inductive QuizResponse (α : Type) where
  | ok (items : List α)
  | shortfallError
deriving DecidableEq

/-- Python `generate_quiz` steps 5–6 (lines 784–799): trim the (post-top-up)
buckets to the exact requested counts; if the total differs from the requested
total, return the shortfall error response, else return the array. -/
def finalizeQuiz {α : Type} (mcq sa tf idf ess : List α)
    (needMcq needSa needTf needIdf needEss : Nat) : QuizResponse α :=
  let final := mergeTrimToCounts mcq sa tf idf ess needMcq needSa needTf needIdf needEss
  if final.length ≠ needMcq + needSa + needTf + needIdf + needEss then
    QuizResponse.shortfallError
  else QuizResponse.ok final

/-- C1: if after the top-up round the trimmed buckets still total less than the
requested total, the operation returns the typed shortfall failure; and a
success response always carries exactly the requested total, never fewer. -/
theorem generateQuiz_shortfall_is_error {α : Type} (mcq sa tf idf ess : List α)
    (needMcq needSa needTf needIdf needEss : Nat) :
    ((mergeTrimToCounts mcq sa tf idf ess
        needMcq needSa needTf needIdf needEss).length
          < needMcq + needSa + needTf + needIdf + needEss →
      finalizeQuiz mcq sa tf idf ess needMcq needSa needTf needIdf needEss
        = QuizResponse.shortfallError) ∧
    (∀ items,
      finalizeQuiz mcq sa tf idf ess needMcq needSa needTf needIdf needEss
          = QuizResponse.ok items →
      items.length = needMcq + needSa + needTf + needIdf + needEss) := by
  constructor
  · intro hshort
    unfold finalizeQuiz
    rw [if_pos (by omega)]
  · intro items hok
    unfold finalizeQuiz at hok
    by_cases hlen : (mergeTrimToCounts mcq sa tf idf ess
        needMcq needSa needTf needIdf needEss).length
          = needMcq + needSa + needTf + needIdf + needEss
    · rw [if_neg (by omega)] at hok
      cases hok
      exact hlen
    · rw [if_pos (by omega)] at hok
      cases hok

/-- C1 witness: a bucket state that is one mcq short after trimming produces
the shortfall error. -/
theorem generateQuiz_shortfall_is_error_witness :
    finalizeQuiz [0] [] [] [] ([] : List Nat) 2 0 0 0 0
      = QuizResponse.shortfallError :=
  (generateQuiz_shortfall_is_error [0] [] [] [] [] 2 0 0 0 0).1 (by decide)

/-! ## Dispatch loop entry (`call_groq`, lines 381–420 and 479–480)

Before any network interaction, `call_groq` builds the candidate list and
skips every model that is on cooldown or unaffordable.  In the scenario where
no model is eligible no state is mutated, so eligibility is captured by two
pure inputs: a cooldown predicate and a single affordability flag
(`can_afford` does not depend on the model).  The embedding covers the
function up to its first network call; what happens after a POST is out of
scope of the claims about this phase. -/

/-- Default of the `GROQ_MODEL` environment variable (line 30). -/
def GROQ_MODEL : String := "llama-3.3-70b-versatile"

/-- `FALLBACK_MODELS` (lines 42–49). -/
def FALLBACK_MODELS : List String :=
  ["llama-3.3-70b-versatile",
   "meta-llama/llama-4-scout-17b-16e-instruct",
   "gemma2-9b-it",
   "llama-3.1-8b-instant",
   "deepseek-r1-distill-llama-70b"]

/-- Order-preserving de-duplication with an explicit `seen` accumulator, as in
`_model_list_preference` (lines 346–351). -/
def dedupAux : List String → List String → List String
  | [], _ => []
  | m :: rest, seen =>
    if m ∈ seen then dedupAux rest seen else m :: dedupAux rest (m :: seen)

/-- Python `_model_list_preference()`: the primary model followed by the
fallbacks, de-duplicated keeping first occurrences. -/
def modelListPreference (primary : String) : List String :=
  dedupAux (primary :: FALLBACK_MODELS) []

/-- Python `choose_model`: the first model that is not on cooldown and whose
estimate is affordable (lines 353–366). -/
def chooseModel (onCooldown : String → Bool) (canAfford : Bool)
    (pref : List String) : Option String :=
  pref.find? (fun m => !onCooldown m && canAfford)

/-- The `models_to_try` construction of `call_groq` (lines 390–396): start from
the chosen model if any, then append every preference model not already tried. -/
def buildToTryAux : List String → List String → List String → List String
  | [], acc, _ => acc
  | m :: rest, acc, tried =>
    if m ∈ tried then buildToTryAux rest acc tried
    else buildToTryAux rest (acc ++ [m]) (m :: tried)

def modelsToTry (onCooldown : String → Bool) (canAfford : Bool)
    (primary : String) : List String :=
  let pref := modelListPreference primary
  match chooseModel onCooldown canAfford pref with
  | some first => buildToTryAux pref [first] [first]
  | none => buildToTryAux pref [] []

/-- How a `call_groq` invocation starts: the early budget-exhaustion raise
(line 400, `RuntimeError("Local budgets exhausted; please retry shortly.")`),
the post-loop dispatch-failure raise with the last observed status/body
(lines 479–480, defaulting to status 500 and an "Unknown Groq failure" body
when no attempt was made), or the first actual network attempt. -/
inductive CallStart where
  | budgetsExhausted
  | dispatchFailure (status : Nat) (body : String)
  | networkAttempt (model : String)
deriving DecidableEq

def unknownGroqFailure : String := "Unknown Groq failure"

/-- The pre-network phase of `call_groq`: build `models_to_try`; raise the
budget-exhaustion error if it is empty; otherwise run the loop, which skips
every model on cooldown or unaffordable, until a model is actually attempted;
if all are skipped, fall through to the final raise with `last_error = None`. -/
def callGroqStart (onCooldown : String → Bool) (canAfford : Bool)
    (primary : String) : CallStart :=
  let toTry := modelsToTry onCooldown canAfford primary
  if toTry.isEmpty then CallStart.budgetsExhausted
  else
    match toTry.find? (fun m => !onCooldown m && canAfford) with
    | some m => CallStart.networkAttempt m
    | none => CallStart.dispatchFailure 500 unknownGroqFailure

/-- Every element produced by `buildToTryAux` comes from the accumulator or
from the input list. -/
theorem mem_buildToTryAux (x : String) :
    ∀ (l acc tried : List String), x ∈ buildToTryAux l acc tried →
      x ∈ acc ∨ x ∈ l := by
  intro l
  induction l with
  | nil => intro acc tried h; exact Or.inl h
  | cons m rest ih =>
    intro acc tried h
    unfold buildToTryAux at h
    by_cases hm : m ∈ tried
    · rw [if_pos hm] at h
      rcases ih acc tried h with h1 | h2
      · exact Or.inl h1
      · exact Or.inr (List.mem_cons_of_mem m h2)
    · rw [if_neg hm] at h
      rcases ih (acc ++ [m]) (m :: tried) h with h1 | h2
      · rcases List.mem_append.mp h1 with h3 | h4
        · exact Or.inl h3
        · exact Or.inr (by simp at h4; simp [h4])
      · exact Or.inr (List.mem_cons_of_mem m h2)

/-- `buildToTryAux` only ever appends to the accumulator. -/
theorem buildToTryAux_extends :
    ∀ (l acc tried : List String), ∃ t, buildToTryAux l acc tried = acc ++ t := by
  intro l
  induction l with
  | nil => intro acc tried; exact ⟨[], by simp [buildToTryAux]⟩
  | cons m rest ih =>
    intro acc tried
    unfold buildToTryAux
    by_cases hm : m ∈ tried
    · rw [if_pos hm]; exact ih acc tried
    · rw [if_neg hm]
      obtain ⟨t, ht⟩ := ih (acc ++ [m]) (m :: tried)
      exact ⟨m :: t, by simp [ht]⟩

/-- C2: when every model in the preference list is ineligible before any
attempt (on cooldown or unaffordable), `call_groq` raises the generic
dispatch failure `Groq 500: Unknown Groq failure` — not the distinct
budget-exhaustion failure — and makes no network call.  The budget-exhaustion
branch is unreachable because `models_to_try` always contains the whole
preference list. -/
theorem callGroq_all_ineligible_raises_dispatch_error
    (onCooldown : String → Bool) (canAfford : Bool) (primary : String)
    (h : ∀ m ∈ modelListPreference primary,
      onCooldown m = true ∨ canAfford = false) :
    callGroqStart onCooldown canAfford primary
        = CallStart.dispatchFailure 500 unknownGroqFailure ∧
    callGroqStart onCooldown canAfford primary ≠ CallStart.budgetsExhausted ∧
    (∀ m, callGroqStart onCooldown canAfford primary
        ≠ CallStart.networkAttempt m) := by
  have hpred : ∀ m ∈ modelListPreference primary,
      ¬ ((fun m => !onCooldown m && canAfford) m = true) := by
    intro m hm
    rcases h m hm with h1 | h2
    · simp [h1]
    · simp [h2]
  have hchoose : chooseModel onCooldown canAfford (modelListPreference primary)
      = none := by
    unfold chooseModel
    exact List.find?_eq_none.mpr hpred
  have htry : modelsToTry onCooldown canAfford primary
      = buildToTryAux (modelListPreference primary) [] [] := by
    simp only [modelsToTry]
    rw [hchoose]
  have hpref : modelListPreference primary
      = primary :: dedupAux FALLBACK_MODELS [primary] := by
    simp [modelListPreference, dedupAux]
  have hne : modelsToTry onCooldown canAfford primary ≠ [] := by
    rw [htry, hpref]
    unfold buildToTryAux
    rw [if_neg (by simp)]
    obtain ⟨t, ht⟩ := buildToTryAux_extends
      (dedupAux FALLBACK_MODELS [primary]) ([] ++ [primary]) [primary]
    rw [ht]
    simp
  have hsub : ∀ x ∈ modelsToTry onCooldown canAfford primary,
      x ∈ modelListPreference primary := by
    intro x hx
    rw [htry] at hx
    rcases mem_buildToTryAux x (modelListPreference primary) [] [] hx with h1 | h2
    · cases h1
    · exact h2
  have hfind : (modelsToTry onCooldown canAfford primary).find?
      (fun m => !onCooldown m && canAfford) = none :=
    List.find?_eq_none.mpr (fun x hx => hpred x (hsub x hx))
  have hresult : callGroqStart onCooldown canAfford primary
      = CallStart.dispatchFailure 500 unknownGroqFailure := by
    unfold callGroqStart
    rw [if_neg (by simpa [List.isEmpty_iff] using hne)]
    rw [hfind]
  refine ⟨hresult, ?_, ?_⟩
  · rw [hresult]; intro hcontra; cases hcontra
  · intro m; rw [hresult]; intro hcontra; cases hcontra

/-- C2 witness: with every model on cooldown, the dispatch loop falls through
to the generic `Groq 500` failure. -/
theorem callGroq_all_ineligible_witness :
    callGroqStart (fun _ => true) true GROQ_MODEL
        = CallStart.dispatchFailure 500 unknownGroqFailure ∧
    callGroqStart (fun _ => true) true GROQ_MODEL
        ≠ CallStart.budgetsExhausted ∧
    (∀ m, callGroqStart (fun _ => true) true GROQ_MODEL
        ≠ CallStart.networkAttempt m) :=
  callGroq_all_ineligible_raises_dispatch_error (fun _ => true) true GROQ_MODEL
    (fun m _ => Or.inl rfl)

/-! ## String similarity (`difflib.SequenceMatcher.ratio`, `difflib.get_close_matches`)

`_repair_mcq` and `_lexical_backup` score strings with
`difflib.SequenceMatcher(None, a, b).ratio()`: twice the total size of the
matching blocks divided by the total length.  The algorithm is embedded
directly: the `find_longest_match` dynamic program over `b2j`, the two
non-junk extension loops, and the recursive decomposition of
`get_matching_blocks` (only the total matched size matters for the ratio, so
the block list itself is not materialised).  There is no junk here
(`isjunk=None`), and the `autojunk` heuristic only fires for sequences of at
least 200 elements, beyond every string this development evaluates, so both
are modelled as absent.  Ratios are exact rationals represented as
numerator/denominator pairs of naturals; Python's float comparisons against
the cutoffs 0.6 and 0.8 agree with the exact comparison away from
representation boundaries, which holds for all inputs evaluated here. -/

/-- Indices (ascending, starting at `j`) at which `c` occurs in the list:
difflib's `b2j[c]`. -/
def charPositions (c : Char) : List Char → Nat → List Nat
  | [], _ => []
  | x :: rest, j =>
    if x = c then j :: charPositions c rest (j + 1)
    else charPositions c rest (j + 1)

/-- Lookup in the `j2len` association list, defaulting to 0 (`j2len.get`). -/
def alookup (j : Nat) : List (Nat × Nat) → Nat
  | [] => 0
  | (k, v) :: rest => if k = j then v else alookup j rest

/-- Inner loop of `find_longest_match`: for each position `j` of `a i` in `b`,
the run ending at `(i, j)` has length one more than the run ending at
`(i-1, j-1)`; track the best `(besti, bestj, bestsize)`. -/
def flmInner (i : Nat) (j2len : List (Nat × Nat)) :
    List Nat → List (Nat × Nat) → Nat × Nat × Nat →
      List (Nat × Nat) × (Nat × Nat × Nat)
  | [], newJ2len, best => (newJ2len, best)
  | j :: js, newJ2len, best =>
    let k := (if j = 0 then 0 else alookup (j - 1) j2len) + 1
    let best' := if k > best.2.2 then (i + 1 - k, j + 1 - k, k) else best
    flmInner i j2len js ((j, k) :: newJ2len) best'

/-- Outer loop of `find_longest_match` over the elements of `a`. -/
def flmOuter (b : List Char) : List Char → Nat → List (Nat × Nat) →
    Nat × Nat × Nat → Nat × Nat × Nat
  | [], _, _, best => best
  | c :: arest, i, j2len, best =>
    let step := flmInner i j2len (charPositions c b 0) [] best
    flmOuter b arest (i + 1) step.1 step.2

/-- The first post-processing `while` of `find_longest_match`: extend the best
block downwards over equal (non-junk) elements.  Fuelled to keep the
recursion structural; the fuel bounds the number of extensions. -/
def extendLow : Nat → List Char → List Char → Nat × Nat × Nat → Nat × Nat × Nat
  | 0, _, _, best => best
  | fuel + 1, a, b, best =>
    let bi := best.1
    let bj := best.2.1
    let bk := best.2.2
    if bi ≠ 0 ∧ bj ≠ 0 ∧
        a.getD (bi - 1) (Char.ofNat 0) = b.getD (bj - 1) (Char.ofNat 0) then
      extendLow fuel a b (bi - 1, bj - 1, bk + 1)
    else best

/-- The second post-processing `while`: extend the best block upwards. -/
def extendHigh : Nat → List Char → List Char → Nat × Nat × Nat → Nat × Nat × Nat
  | 0, _, _, best => best
  | fuel + 1, a, b, best =>
    let bi := best.1
    let bj := best.2.1
    let bk := best.2.2
    if bi + bk < a.length ∧ bj + bk < b.length ∧
        a.getD (bi + bk) (Char.ofNat 0) = b.getD (bj + bk) (Char.ofNat 0) then
      extendHigh fuel a b (bi, bj, bk + 1)
    else best

/-- `find_longest_match` over whole sequences (the recursive calls below pass
explicit slices instead of index bounds). -/
def findLongestMatch (a b : List Char) : Nat × Nat × Nat :=
  extendHigh (a.length + b.length) a b
    (extendLow (a.length + b.length) a b (flmOuter b a 0 [] (0, 0, 0)))

/-- Total size of the matching blocks (`get_matching_blocks` recursion,
summed).  The fuel dominates the recursion depth; `matchTotal` below supplies
enough for the splitting to run to completion exactly as in Python. -/
def matchTotalFuel : Nat → List Char → List Char → Nat
  | 0, _, _ => 0
  | fuel + 1, a, b =>
    let m := findLongestMatch a b
    if m.2.2 = 0 then 0
    else
      matchTotalFuel fuel (a.take m.1) (b.take m.2.1) + m.2.2 +
        matchTotalFuel fuel (a.drop (m.1 + m.2.2)) (b.drop (m.2.1 + m.2.2))

def matchTotal (a b : List Char) : Nat :=
  matchTotalFuel (a.length + b.length + 1) a b

/-- `SequenceMatcher.ratio()` as an exact numerator/denominator pair:
`(2 * M, len a + len b)`; a zero denominator stands for the ratio 1.0
(difflib `_calculate_ratio`). -/
def ratioPair (a b : List Char) : Nat × Nat :=
  (2 * matchTotal a b, a.length + b.length)

/-- The rational value of a ratio pair. -/
def toQ (p : Nat × Nat) : ℚ := if p.2 = 0 then 1 else (p.1 : ℚ) / (p.2 : ℚ)

/-- `ratio()` as an exact rational. -/
def ratioQ (a b : List Char) : ℚ := toQ (ratioPair a b)

/-- Executable `toQ p ≥ n / d` (for a positive denominator `d`). -/
def ratioPairGe (p : Nat × Nat) (n d : Nat) : Bool :=
  if p.2 = 0 then decide (n ≤ d) else decide (n * p.2 ≤ p.1 * d)

/-- Executable `toQ p < toQ q`. -/
def ratioPairLt (p q : Nat × Nat) : Bool :=
  if p.2 = 0 then
    if q.2 = 0 then false else decide (q.2 < q.1)
  else if q.2 = 0 then decide (p.1 < p.2)
  else decide (p.1 * q.2 < q.1 * p.2)

/-- Executable `toQ p = toQ q`. -/
def ratioPairEq (p q : Nat × Nat) : Bool :=
  if p.2 = 0 then
    if q.2 = 0 then true else decide (q.1 = q.2)
  else if q.2 = 0 then decide (p.1 = p.2)
  else decide (p.1 * q.2 = q.1 * p.2)

theorem ratioPairGe_iff (p : Nat × Nat) (n d : Nat) (hd : 0 < d) :
    ratioPairGe p n d = true ↔ (n : ℚ) / (d : ℚ) ≤ toQ p := by
  have hdq : (0 : ℚ) < (d : ℚ) := by exact_mod_cast hd
  unfold ratioPairGe toQ
  by_cases h2 : p.2 = 0
  · simp only [h2, if_true, decide_eq_true_eq]
    rw [div_le_one hdq]
    constructor <;> intro h <;> exact_mod_cast h
  · have hp2 : (0 : ℚ) < (p.2 : ℚ) := by
      exact_mod_cast Nat.pos_of_ne_zero h2
    simp only [h2, if_false, decide_eq_true_eq]
    rw [div_le_div_iff hdq hp2]
    constructor <;> intro h <;> exact_mod_cast h

theorem ratioPairLt_iff (p q : Nat × Nat) :
    ratioPairLt p q = true ↔ toQ p < toQ q := by
  unfold ratioPairLt toQ
  by_cases h2 : p.2 = 0
  · by_cases h3 : q.2 = 0
    · simp [h2, h3]
    · have hq2 : (0 : ℚ) < (q.2 : ℚ) := by
        exact_mod_cast Nat.pos_of_ne_zero h3
      simp only [h2, h3, if_true, if_false, decide_eq_true_eq]
      rw [lt_div_iff hq2, one_mul]
      constructor <;> intro h <;> exact_mod_cast h
  · by_cases h3 : q.2 = 0
    · have hp2 : (0 : ℚ) < (p.2 : ℚ) := by
        exact_mod_cast Nat.pos_of_ne_zero h2
      simp only [h2, h3, if_true, if_false, decide_eq_true_eq]
      rw [div_lt_one hp2]
      constructor <;> intro h <;> exact_mod_cast h
    · have hp2 : (0 : ℚ) < (p.2 : ℚ) := by
        exact_mod_cast Nat.pos_of_ne_zero h2
      have hq2 : (0 : ℚ) < (q.2 : ℚ) := by
        exact_mod_cast Nat.pos_of_ne_zero h3
      simp only [h2, h3, if_false, decide_eq_true_eq]
      rw [div_lt_div_iff hp2 hq2]
      constructor <;> intro h <;> exact_mod_cast h

/-! ## Lexical grading fallback (`_lexical_backup`, lines 708–719) -/

/-- Characters matched by the regex class `[a-z0-9]`. -/
def alnumLower (c : Char) : Bool :=
  ('a' ≤ c && c ≤ 'z') || ('0' ≤ c && c ≤ '9')

/-- Python `str.lower` over a character list (ASCII model). -/
def lowerList (l : List Char) : List Char := l.map lowerChar

/-- Maximal runs of `[a-z0-9]` characters (`re.findall(r"[a-z0-9]+", s)`).
The accumulator holds the current run, reversed. -/
def tokenRunsAux : List Char → List Char → List (List Char)
  | [], cur => if cur.isEmpty then [] else [cur.reverse]
  | c :: cs, cur =>
    if alnumLower c then tokenRunsAux cs (c :: cur)
    else if cur.isEmpty then tokenRunsAux cs []
    else cur.reverse :: tokenRunsAux cs []

def tokenRuns (l : List Char) : List (List Char) := tokenRunsAux l []

/-- Order-preserving de-duplication of token lists (Python `set(...)`:
only membership and cardinality of the sets are ever used). -/
def dedupCL : List (List Char) → List (List Char) → List (List Char)
  | [], _ => []
  | t :: rest, seen =>
    if t ∈ seen then dedupCL rest seen else t :: dedupCL rest (t :: seen)

/-- The token set of a string: de-duplicated maximal `[a-z0-9]` runs. -/
def tokenSet (l : List Char) : List (List Char) := dedupCL (tokenRuns l) []

/-- The normalised, lower-cased form both grading heuristics start from:
`_norm_text(s).lower()`. -/
def lexNorm (s : String) : List Char := lowerList (normText s).data

/-- `len(wa & wb)`: the number of shared tokens between student and
reference. -/
def sharedTokenCount (student reference : String) : Nat :=
  ((tokenSet (lexNorm student)).filter
    (fun t => t ∈ tokenSet (lexNorm reference))).length

/-- Python `_lexical_backup`: false on an empty side; correct on ≥ 3 shared
tokens, or on shared tokens ≥ `max(2, len(wb) // 2)` for a non-empty
reference token set; otherwise correct iff the similarity ratio is ≥ 0.80.
(`int(0.5 * len(wb))` is exactly `len(wb) // 2` — halves are exact floats.) -/
def lexicalBackup (student reference : String) : Bool :=
  let sa := lexNorm student
  let ra := lexNorm reference
  if sa.isEmpty || ra.isEmpty then false
  else
    let wb := tokenSet ra
    let inter := sharedTokenCount student reference
    if inter ≥ 3 ∨ (¬wb.isEmpty ∧ inter ≥ max 2 (wb.length / 2)) then true
    else ratioPairGe (ratioPair sa ra) 4 5

/-- Modelled from the spec claim's wording, for comparison with the code:
correct exactly when shared tokens ≥ 3, or shared tokens ≥ 50% of the
reference's token count, or the similarity ratio is ≥ 0.80. -/
def lexicalBackupClaimed (student reference : String) : Bool :=
  let sa := lexNorm student
  let ra := lexNorm reference
  let inter := sharedTokenCount student reference
  decide (inter ≥ 3) || decide (2 * inter ≥ (tokenSet ra).length) ||
    ratioPairGe (ratioPair sa ra) 4 5

/-- C8 counterexample: student "alpha beta" against reference
"alpha beta c d e" shares 2 tokens of the reference's 5, which is below 50%,
and has similarity ratio 20/26 < 0.8 — yet the code reports correct, because
its actual second disjunct is `inter ≥ max(2, len(wb) // 2) = 2`. -/
theorem lexicalBackup_counterexample :
    lexicalBackup "alpha beta" "alpha beta c d e" = true ∧
    lexicalBackupClaimed "alpha beta" "alpha beta c d e" = false := by
  constructor
  · decide
  · decide

/-- C8 (amended): the lexical fallback reports correct exactly when both
normalised sides are non-empty and either shared tokens ≥ 3, or the reference
token set is non-empty and shared tokens reach `max 2 (halve the reference
token count, rounded down)`, or the similarity ratio is at least 0.80. -/
theorem lexicalBackup_characterization (student reference : String) :
    lexicalBackup student reference = true ↔
      (lexNorm student ≠ [] ∧ lexNorm reference ≠ [] ∧
        (sharedTokenCount student reference ≥ 3 ∨
         (tokenSet (lexNorm reference) ≠ [] ∧
           sharedTokenCount student reference
             ≥ max 2 ((tokenSet (lexNorm reference)).length / 2)) ∨
         (4 : ℚ) / 5 ≤ ratioQ (lexNorm student) (lexNorm reference))) := by
  unfold lexicalBackup
  by_cases hsa : lexNorm student = []
  · simp [hsa, List.isEmpty_iff]
  · by_cases hra : lexNorm reference = []
    · simp [hra, List.isEmpty_iff]
    · rw [if_neg (by simp [List.isEmpty_iff, hsa, hra])]
      by_cases hcond : sharedTokenCount student reference ≥ 3 ∨
          (¬(tokenSet (lexNorm reference)).isEmpty ∧
            sharedTokenCount student reference
              ≥ max 2 ((tokenSet (lexNorm reference)).length / 2))
      · rw [if_pos hcond]
        simp only [true_iff, List.isEmpty_iff] at hcond ⊢
        exact ⟨hsa, hra, by tauto⟩
      · rw [if_neg hcond]
        have hbridge := ratioPairGe_iff
          (ratioPair (lexNorm student) (lexNorm reference)) 4 5 (by norm_num)
        simp only [List.isEmpty_iff] at hcond
        rw [show ((4 : Nat) : ℚ) / ((5 : Nat) : ℚ) = (4 : ℚ) / 5 by norm_num]
          at hbridge
        rw [hbridge]
        unfold ratioQ
        constructor
        · intro h
          exact ⟨hsa, hra, Or.inr (Or.inr h)⟩
        · rintro ⟨-, -, h1 | h2 | h3⟩
          · exact absurd (Or.inl h1) hcond
          · exact absurd (Or.inr h2) hcond
          · exact h3

/-! ## MCQ repair (`_answers_match`, `_repair_mcq`, lines 538–575)

Items are dictionaries in Python; `_repair_mcq` guards every access with
`isinstance` checks, so the embedding models the well-typed mcq payload
(string question, list of string choices, string answer) on which all the
claims about repair are stated. -/

structure MCQItem where
  question : String
  choices : List String
  answer : String
deriving DecidableEq

/-- Python `_answers_match`: does the normalised answer equal some normalised
choice? -/
def answersMatch (ans : String) (choices : List String) : Bool :=
  choices.any (fun c => normText c == normText ans)

/-- The second loop of the trim phase: append choices not already collected
until 4 are present (`if len(new) >= 4: break; if c not in new: new.append(c)`). -/
def trimLoop : List String → List String → List String
  | [], acc => acc
  | c :: rest, acc =>
    if acc.length ≥ 4 then acc
    else if c ∈ acc then trimLoop rest acc
    else trimLoop rest (acc ++ [c])

/-- The trim phase of `_repair_mcq` (lines 552–562): when more than 4 choices
are present, seed the new list with the first choice whose normalised text
equals the normalised answer, fill up to 4 with the remaining distinct
choices in original order, and truncate to 4. -/
def repairTrim (item : MCQItem) : MCQItem :=
  if item.choices.length > 4 then
    let normAns := normText item.answer
    let first :=
      match item.choices.find? (fun c => normText c == normAns) with
      | some c => [c]
      | none => []
    { item with choices := (trimLoop item.choices first).take 4 }
  else item

/-- Tuple comparison used by `heapq.nlargest` on `(ratio, word)` pairs:
lexicographic on the exact ratio, then on the string (Python compares
strings by code point). -/
def scoreLt (p q : (Nat × Nat) × String) : Bool :=
  ratioPairLt p.1 q.1 || (ratioPairEq p.1 q.1 && decide (p.2 < q.2))

/-- Maximum of a scored list under `scoreLt`, keeping the earlier element on
ties (`heapq.nlargest(1, result)` returns the first maximal element). -/
def pickBest (p : (Nat × Nat) × String)
    (rest : List ((Nat × Nat) × String)) : (Nat × Nat) × String :=
  rest.foldl (fun best q => if scoreLt best q then q else best) p

/-- `difflib.get_close_matches(word, possibilities, n=1, cutoff=cn/cd)`.
The Python implementation pre-filters with `real_quick_ratio()` and
`quick_ratio()`, both documented (and true) upper bounds of `ratio()`, so the
kept set is exactly the possibilities whose ratio reaches the cutoff. -/
def getCloseMatches1 (word : String) (possibilities : List String)
    (cn cd : Nat) : List String :=
  let scored := possibilities.filterMap (fun x =>
    if ratioPairGe (ratioPair x.data word.data) cn cd then
      some (ratioPair x.data word.data, x)
    else none)
  match scored with
  | [] => []
  | p :: rest => [(pickBest p rest).2]

/-- The fuzzy phase of `_repair_mcq` (lines 563–575): when the answer matches
no choice, look for the closest normalised choice at cutoff 0.6 and replace
the answer by the first original choice with that normalised text. -/
def repairFuzzy (item : MCQItem) : MCQItem :=
  if answersMatch item.answer item.choices then item
  else
    let normChoices := item.choices.map normText
    if normChoices.isEmpty then item
    else
      match getCloseMatches1 (normText item.answer) normChoices 3 5 with
      | [] => item
      | m :: _ =>
        match item.choices.find? (fun c => normText c == m) with
        | some c => { item with answer := c }
        | none => item

/-- Python `_repair_mcq`: trim, then fuzzy-align the answer. -/
def repairMCQ (item : MCQItem) : MCQItem := repairFuzzy (repairTrim item)

/-- An mcq item with five identical choices, all equal to the answer. -/
def dupChoicesItem : MCQItem :=
  { question := "q", choices := ["A", "A", "A", "A", "A"], answer := "A" }

/-- An mcq item whose first normalised match for the answer (`"x  y"`, double
space) differs from the exact answer string `"x y"`, which appears last. -/
def spacedChoicesItem : MCQItem :=
  { question := "q", choices := ["x  y", "b1", "b2", "b3", "x y"],
    answer := "x y" }

/-- C5 counterexample: both items have more than 4 choices including one that
normalises (indeed is equal) to the answer, yet repair leaves the first with
a single choice (the duplicate check collapses copies), and drops the exact
answer string from the second (the earlier normalised match is kept
instead). -/
theorem repairMCQ_counterexample :
    (dupChoicesItem.choices.length > 4 ∧
      dupChoicesItem.answer ∈ dupChoicesItem.choices ∧
      (repairMCQ dupChoicesItem).choices.length ≠ 4) ∧
    (spacedChoicesItem.choices.length > 4 ∧
      spacedChoicesItem.answer ∈ spacedChoicesItem.choices ∧
      spacedChoicesItem.answer ∉ (repairMCQ spacedChoicesItem).choices) := by
  decide

/-- `trimLoop` appends, in order, the input elements not already collected,
until the accumulator reaches 4 elements (for duplicate-free input). -/
theorem trimLoop_spec (cs : List String) :
    ∀ acc : List String, cs.Nodup →
      trimLoop cs acc
        = acc ++ (cs.filter (fun c => decide (c ∉ acc))).take (4 - acc.length) := by
  induction cs with
  | nil => intro acc _; simp [trimLoop]
  | cons c rest ih =>
    intro acc hnd
    have hndrest : rest.Nodup := (List.nodup_cons.mp hnd).2
    have hcrest : c ∉ rest := (List.nodup_cons.mp hnd).1
    unfold trimLoop
    by_cases hfull : acc.length ≥ 4
    · rw [if_pos hfull]
      have h0 : 4 - acc.length = 0 := by omega
      rw [h0]
      simp
    · rw [if_neg hfull]
      by_cases hmem : c ∈ acc
      · rw [if_pos hmem]
        rw [ih acc hndrest]
        have : (decide (c ∉ acc)) = false := by simp [hmem]
        rw [List.filter_cons_of_neg (by simp [hmem])]
      · rw [if_neg hmem]
        rw [ih (acc ++ [c]) hndrest]
        rw [List.filter_cons_of_pos (by simp [hmem])]
        have hfilter : rest.filter (fun x => decide (x ∉ acc ++ [c]))
            = rest.filter (fun x => decide (x ∉ acc)) := by
          apply List.filter_congr
          intro x hx
          have hxc : x ≠ c := fun h => hcrest (h ▸ hx)
          simp [List.mem_append, hxc]
        rw [hfilter]
        have hlen : (acc ++ [c]).length = acc.length + 1 := by simp
        rw [hlen]
        have htake : 4 - acc.length = (4 - (acc.length + 1)) + 1 := by omega
        rw [htake]
        simp [List.take_succ_cons]

/-- C5 (amended): for an mcq item with more than 4 pairwise-distinct choices,
where `m` is the first choice whose normalised text equals the normalised
answer, repair keeps exactly 4 choices — `m` first, then the remaining
choices in original order — leaves the answer unchanged, and thus keeps a
choice that normalises to the answer (though not necessarily the answer's
exact string, as the counterexample shows). -/
theorem repairMCQ_trim_preserves_first_match (item : MCQItem) (m : String)
    (hlen : 4 < item.choices.length)
    (hnodup : item.choices.Nodup)
    (hfind : item.choices.find? (fun c => normText c == normText item.answer)
        = some m) :
    (repairMCQ item).choices
        = m :: (item.choices.filter (fun c => decide (c ≠ m))).take 3 ∧
    (repairMCQ item).choices.length = 4 ∧
    (repairMCQ item).answer = item.answer ∧
    m ∈ item.choices ∧ normText m = normText item.answer ∧
    m ∈ (repairMCQ item).choices := by
  have hm_mem : m ∈ item.choices := List.mem_of_find?_eq_some hfind
  have hm_norm : normText m = normText item.answer := by
    have h := List.find?_some hfind
    simpa using h
  have htrim : repairTrim item
      = { item with choices := (trimLoop item.choices [m]).take 4 } := by
    unfold repairTrim
    rw [if_pos hlen]
    simp only [hfind]
  have hloop : trimLoop item.choices [m]
      = m :: (item.choices.filter (fun c => decide (c ≠ m))).take 3 := by
    rw [trimLoop_spec item.choices [m] hnodup]
    have hcongr : item.choices.filter (fun c => decide (c ∉ [m]))
        = item.choices.filter (fun c => decide (c ≠ m)) := by
      apply List.filter_congr
      intro x _
      simp
    rw [hcongr]
    simp
  have hflen : (item.choices.filter (fun c => decide (c ≠ m))).length
      = item.choices.length - 1 := by
    have herase : item.choices.erase m
        = item.choices.filter (fun c => decide (c ≠ m)) := by
      simpa using hnodup.erase_eq_filter m
    rw [← herase]
    exact List.length_erase_of_mem hm_mem
  have htake3 : ((item.choices.filter (fun c => decide (c ≠ m))).take 3).length
      = 3 := by
    rw [List.length_take]
    omega
  have hchoice4 : (trimLoop item.choices [m]).length = 4 := by
    rw [hloop, List.length_cons, htake3]
  have htrimmed : (repairTrim item).choices
      = m :: (item.choices.filter (fun c => decide (c ≠ m))).take 3 := by
    rw [htrim]
    dsimp only
    rw [List.take_of_length_le (le_of_eq hchoice4), hloop]
  have htanswer : (repairTrim item).answer = item.answer := by
    rw [htrim]
  have hmatch : answersMatch (repairTrim item).answer (repairTrim item).choices
      = true := by
    unfold answersMatch
    rw [htanswer, htrimmed]
    apply List.any_eq_true.mpr
    exact ⟨m, List.mem_cons_self m _, by simp [hm_norm]⟩
  have hfuzzy : repairMCQ item = repairTrim item := by
    unfold repairMCQ repairFuzzy
    rw [hmatch]
    simp
  rw [hfuzzy, htrimmed, htanswer]
  refine ⟨rfl, ?_, rfl, hm_mem, hm_norm, List.mem_cons_self m _⟩
  rw [List.length_cons, htake3]

/-- A six-choice item with pairwise-distinct choices containing the exact
answer. -/
def sixChoicesItem : MCQItem :=
  { question := "capital?"
    choices := ["Paris", "London", "Berlin", "Rome", "Madrid", "Lisbon"]
    answer := "Paris" }

/-- C5 witness: the amended trim theorem applied to a concrete six-choice
item. -/
theorem repairMCQ_trim_preserves_first_match_witness :
    (repairMCQ sixChoicesItem).choices
        = "Paris" :: (sixChoicesItem.choices.filter
            (fun c => decide (c ≠ "Paris"))).take 3 ∧
    (repairMCQ sixChoicesItem).choices.length = 4 ∧
    (repairMCQ sixChoicesItem).answer = sixChoicesItem.answer ∧
    "Paris" ∈ sixChoicesItem.choices ∧
    normText "Paris" = normText sixChoicesItem.answer ∧
    "Paris" ∈ (repairMCQ sixChoicesItem).choices :=
  repairMCQ_trim_preserves_first_match sixChoicesItem "Paris"
    (by decide) (by decide) (by decide)

theorem ratioPairEq_iff (p q : Nat × Nat) :
    ratioPairEq p q = true ↔ toQ p = toQ q := by
  unfold ratioPairEq toQ
  by_cases h2 : p.2 = 0
  · by_cases h3 : q.2 = 0
    · simp [h2, h3]
    · have hq2 : (0 : ℚ) < (q.2 : ℚ) := by
        exact_mod_cast Nat.pos_of_ne_zero h3
      simp only [h2, h3, if_true, if_false, decide_eq_true_eq]
      rw [eq_comm (a := (1 : ℚ)), div_eq_one_iff_eq (ne_of_gt hq2)]
      constructor <;> intro h <;> exact_mod_cast h
  · by_cases h3 : q.2 = 0
    · have hp2 : (0 : ℚ) < (p.2 : ℚ) := by
        exact_mod_cast Nat.pos_of_ne_zero h2
      simp only [h2, h3, if_true, if_false, decide_eq_true_eq]
      rw [div_eq_one_iff_eq (ne_of_gt hp2)]
      constructor <;> intro h <;> exact_mod_cast h
    · have hp2 : (0 : ℚ) < (p.2 : ℚ) := by
        exact_mod_cast Nat.pos_of_ne_zero h2
      have hq2 : (0 : ℚ) < (q.2 : ℚ) := by
        exact_mod_cast Nat.pos_of_ne_zero h3
      simp only [h2, h3, if_false, decide_eq_true_eq]
      rw [div_eq_div_iff (ne_of_gt hp2) (ne_of_gt hq2)]
      constructor <;> intro h <;> exact_mod_cast h

/-- If the tuple comparison prefers `q` over `p`, the ratio cannot drop. -/
theorem scoreLt_toQ_le {p q : (Nat × Nat) × String} (h : scoreLt p q = true) :
    toQ p.1 ≤ toQ q.1 := by
  unfold scoreLt at h
  simp only [Bool.or_eq_true, Bool.and_eq_true] at h
  rcases h with h1 | ⟨h2, -⟩
  · exact le_of_lt ((ratioPairLt_iff p.1 q.1).mp h1)
  · exact le_of_eq ((ratioPairEq_iff p.1 q.1).mp h2)

/-- If the tuple comparison keeps `p`, the ratio of `q` is at most that of
`p`. -/
theorem scoreLt_false_toQ_ge {p q : (Nat × Nat) × String}
    (h : scoreLt p q = false) : toQ q.1 ≤ toQ p.1 := by
  by_cases hlt : ratioPairLt p.1 q.1 = true
  · exfalso
    unfold scoreLt at h
    rw [hlt] at h
    simp at h
  · have : ¬ toQ p.1 < toQ q.1 := fun hc =>
      hlt ((ratioPairLt_iff p.1 q.1).mpr hc)
    exact le_of_not_lt this

/-- `pickBest` returns an element of the list whose ratio dominates every
element's ratio. -/
theorem pickBest_spec (rest : List ((Nat × Nat) × String)) :
    ∀ p, pickBest p rest ∈ p :: rest ∧
      ∀ q ∈ p :: rest, toQ q.1 ≤ toQ (pickBest p rest).1 := by
  induction rest with
  | nil =>
    intro p
    constructor
    · simp [pickBest]
    · intro q hq
      rcases List.mem_singleton.mp hq with rfl
      simp [pickBest]
  | cons r rs ih =>
    intro p
    have hstep : pickBest p (r :: rs)
        = pickBest (if scoreLt p r then r else p) rs := by
      unfold pickBest
      rw [List.foldl_cons]
    by_cases h : scoreLt p r = true
    · rw [if_pos h] at hstep
      have hle := scoreLt_toQ_le h
      obtain ⟨hmem, hmax⟩ := ih r
      rw [hstep]
      constructor
      · exact List.mem_cons_of_mem p hmem
      · intro q hq
        rcases List.mem_cons.mp hq with rfl | hq2
        · exact le_trans hle (hmax r (List.mem_cons_self r rs))
        · exact hmax q hq2
    · rw [if_neg h] at hstep
      have hge := scoreLt_false_toQ_ge (Bool.eq_false_iff.mpr h)
      obtain ⟨hmem, hmax⟩ := ih p
      rw [hstep]
      constructor
      · rcases List.mem_cons.mp hmem with heq | hq2
        · rw [heq]
          exact List.mem_cons_self _ _
        · exact List.mem_cons_of_mem _ (List.mem_cons_of_mem r hq2)
      · intro q hq
        rcases List.mem_cons.mp hq with rfl | hq2
        · exact hmax q (List.mem_cons_self q rs)
        · rcases List.mem_cons.mp hq2 with rfl | hq3
          · exact le_trans hge (hmax p (List.mem_cons_self p rs))
          · exact hmax q (List.mem_cons_of_mem p hq3)

/-- Bridge specialised to the 0.6 cutoff. -/
theorem ratioQ_ge_35 (a b : List Char)
    (h : ratioPairGe (ratioPair a b) 3 5 = true) :
    (3 : ℚ) / 5 ≤ ratioQ a b := by
  have h2 := (ratioPairGe_iff (ratioPair a b) 3 5 (by norm_num)).mp h
  unfold ratioQ
  exact_mod_cast h2

theorem ratioQ_ge_35_of (a b : List Char)
    (h : (3 : ℚ) / 5 ≤ ratioQ a b) :
    ratioPairGe (ratioPair a b) 3 5 = true := by
  rw [ratioPairGe_iff (ratioPair a b) 3 5 (by norm_num)]
  unfold ratioQ at h
  exact_mod_cast h

/-- Behaviour of the fuzzy phase when the answer matches no choice but some
choice reaches the 0.6 similarity cutoff: the answer is replaced by an
original choice whose normalised text attains the best ratio. -/
theorem repairFuzzy_spec (t : MCQItem)
    (hmatch : answersMatch t.answer t.choices = false)
    (hex : ∃ c ∈ t.choices,
      (3 : ℚ) / 5 ≤ ratioQ (normText c).data (normText t.answer).data) :
    ∃ c ∈ t.choices, (repairFuzzy t).answer = c ∧
      (3 : ℚ) / 5 ≤ ratioQ (normText c).data (normText t.answer).data ∧
      ∀ c' ∈ t.choices,
        ratioQ (normText c').data (normText t.answer).data ≤
          ratioQ (normText c).data (normText t.answer).data := by
  obtain ⟨c₀, hc₀mem, hc₀ratio⟩ := hex
  have hc₀bool : ratioPairGe
      (ratioPair (normText c₀).data (normText t.answer).data) 3 5 = true :=
    ratioQ_ge_35_of _ _ hc₀ratio
  have hmemscored :
      (ratioPair (normText c₀).data (normText t.answer).data, normText c₀)
        ∈ (t.choices.map normText).filterMap (fun x =>
            if ratioPairGe (ratioPair x.data (normText t.answer).data) 3 5 then
              some (ratioPair x.data (normText t.answer).data, x)
            else none) := by
    apply List.mem_filterMap.mpr
    exact ⟨normText c₀, List.mem_map_of_mem _ hc₀mem, by rw [if_pos hc₀bool]⟩
  have hscored_prop : ∀ y ∈ (t.choices.map normText).filterMap (fun x =>
      if ratioPairGe (ratioPair x.data (normText t.answer).data) 3 5 then
        some (ratioPair x.data (normText t.answer).data, x)
      else none),
      y.2 ∈ t.choices.map normText ∧
      y.1 = ratioPair y.2.data (normText t.answer).data ∧
      ratioPairGe y.1 3 5 = true := by
    intro y hy
    obtain ⟨x, hx, hfx⟩ := List.mem_filterMap.mp hy
    by_cases hb : ratioPairGe (ratioPair x.data (normText t.answer).data) 3 5
        = true
    · rw [if_pos hb] at hfx
      cases hfx
      exact ⟨hx, rfl, hb⟩
    · rw [if_neg hb] at hfx
      cases hfx
  cases hscored : (t.choices.map normText).filterMap (fun x =>
      if ratioPairGe (ratioPair x.data (normText t.answer).data) 3 5 then
        some (ratioPair x.data (normText t.answer).data, x)
      else none) with
  | nil =>
    rw [hscored] at hmemscored
    cases hmemscored
  | cons p rest =>
    obtain ⟨hbmem, hbmax⟩ := pickBest_spec rest p
    rw [hscored] at hscored_prop
    obtain ⟨hb2mem, hb2eq, hb2ge⟩ := hscored_prop _ hbmem
    obtain ⟨c₁, hc₁mem, hc₁eq⟩ := List.mem_map.mp hb2mem
    have hfindsome : (t.choices.find?
        (fun c => normText c == (pickBest p rest).2)).isSome := by
      rw [List.find?_isSome]
      exact ⟨c₁, hc₁mem, by simp [hc₁eq]⟩
    obtain ⟨c₂, hc₂⟩ := Option.isSome_iff_exists.mp hfindsome
    have hc₂mem : c₂ ∈ t.choices := List.mem_of_find?_eq_some hc₂
    have hc₂norm : normText c₂ = (pickBest p rest).2 := by
      have h := List.find?_some hc₂
      simpa using h
    have hresult : repairFuzzy t = { t with answer := c₂ } := by
      unfold repairFuzzy getCloseMatches1
      rw [hmatch]
      simp only [Bool.false_eq_true, if_false]
      rw [if_neg (by
        simp only [List.isEmpty_iff, List.map_eq_nil_iff]
        intro hnil
        rw [hnil] at hc₀mem
        cases hc₀mem)]
      rw [hscored]
      simp only []
      rw [hc₂]
    have hratio_c₂ : ratioQ (normText c₂).data (normText t.answer).data
        = toQ (pickBest p rest).1 := by
      rw [hc₂norm]
      unfold ratioQ
      rw [← hb2eq]
    refine ⟨c₂, hc₂mem, by rw [hresult], ?_, ?_⟩
    · rw [hratio_c₂]
      have h2 := (ratioPairGe_iff (pickBest p rest).1 3 5 (by norm_num)).mp hb2ge
      exact_mod_cast h2
    · intro c' hc'mem
      rw [hratio_c₂]
      by_cases hb' : ratioPairGe
          (ratioPair (normText c').data (normText t.answer).data) 3 5 = true
      · have hmem' : (ratioPair (normText c').data (normText t.answer).data,
            normText c') ∈ (t.choices.map normText).filterMap (fun x =>
              if ratioPairGe (ratioPair x.data (normText t.answer).data) 3 5
              then some (ratioPair x.data (normText t.answer).data, x)
              else none) := by
          apply List.mem_filterMap.mpr
          exact ⟨normText c', List.mem_map_of_mem _ hc'mem, by rw [if_pos hb']⟩
        rw [hscored] at hmem'
        have := hbmax _ hmem'
        simpa using this
      · have hlt : ratioQ (normText c').data (normText t.answer).data
            < (3 : ℚ) / 5 := by
          by_contra hge
          exact hb' (ratioQ_ge_35_of _ _ (le_of_not_lt hge))
        have h35 : (3 : ℚ) / 5 ≤ toQ (pickBest p rest).1 := by
          have h2 := (ratioPairGe_iff (pickBest p rest).1 3 5 (by norm_num)).mp
            hb2ge
          exact_mod_cast h2
        exact le_of_lt (lt_of_lt_of_le hlt h35)

/-- The worked spec example for fuzzy repair. -/
def parisItem : MCQItem :=
  { question := "capital?"
    choices := ["Paris, France.", "London", "Berlin", "Rome"]
    answer := "Paris, France" }

/-- C6: if the (post-trim) answer equals no choice after normalisation and the
best similarity ratio against the normalised choices is at least 0.6, repair
replaces the answer with the exact original text of a best-matching choice;
in particular answer "Paris, France" against choices
["Paris, France.", "London", "Berlin", "Rome"] becomes exactly
"Paris, France.". -/
theorem repairMCQ_fuzzy_best_match :
    (∀ item : MCQItem,
      answersMatch item.answer (repairTrim item).choices = false →
      (∃ c ∈ (repairTrim item).choices,
        (3 : ℚ) / 5 ≤ ratioQ (normText c).data (normText item.answer).data) →
      ∃ c ∈ (repairTrim item).choices,
        (repairMCQ item).answer = c ∧
        (3 : ℚ) / 5 ≤ ratioQ (normText c).data (normText item.answer).data ∧
        ∀ c' ∈ (repairTrim item).choices,
          ratioQ (normText c').data (normText item.answer).data ≤
            ratioQ (normText c).data (normText item.answer).data) ∧
    (repairMCQ parisItem).answer = "Paris, France." := by
  constructor
  · intro item hmatch hex
    have hta : (repairTrim item).answer = item.answer := by
      unfold repairTrim
      split
      · simp
      · rfl
    have hspec := repairFuzzy_spec (repairTrim item)
      (by rw [hta]; exact hmatch) (by rw [hta]; exact hex)
    rw [hta] at hspec
    exact hspec
  · decide

/-- C6 witness: the fuzzy theorem applied to the Paris item, with the cutoff
hypothesis discharged by computation. -/
theorem repairMCQ_fuzzy_best_match_witness :
    ∃ c ∈ (repairTrim parisItem).choices,
      (repairMCQ parisItem).answer = c ∧
      (3 : ℚ) / 5 ≤ ratioQ (normText c).data (normText parisItem.answer).data ∧
      ∀ c' ∈ (repairTrim parisItem).choices,
        ratioQ (normText c').data (normText parisItem.answer).data ≤
          ratioQ (normText c).data (normText parisItem.answer).data :=
  repairMCQ_fuzzy_best_match.1 parisItem (by decide)
    ⟨"Paris, France.", by decide, ratioQ_ge_35 _ _ (by decide)⟩

/-! ## Output sanitizer (`_clean_model_output`, lines 483–491)

`_THINK_RE = <think>.*?</think>` (DOTALL, IGNORECASE) removal, first
fenced-block extraction via `_FENCE_RE` (three backticks, optional `json`,
non-greedy body), byte-order-mark removal and a final
``text.strip("` \n\r\t")``.  The regex engines are embedded as left-to-right
scanners with the same leftmost/shortest-match semantics; non-greedy bodies
stop at the first closing marker. -/

def thinkOpen : List Char := ['<', 't', 'h', 'i', 'n', 'k', '>']

def thinkClose : List Char := ['<', '/', 't', 'h', 'i', 'n', 'k', '>']

def fenceTicks : List Char := ['\u0060', '\u0060', '\u0060']

def jsonLit : List Char := ['j', 's', 'o', 'n']

/-- Case-insensitive literal match at the head of the input (patterns are
lower case); returns the rest of the input on success. -/
def matchCI : List Char → List Char → Option (List Char)
  | [], s => some s
  | _ :: _, [] => none
  | p :: ps, c :: cs => if lowerChar c = p then matchCI ps cs else none

/-- Remainder after the first occurrence of the pattern (scanning left to
right), or `none` if the pattern never occurs. -/
def dropThroughCI (pat : List Char) : List Char → Option (List Char)
  | [] => none
  | c :: cs =>
    match matchCI pat (c :: cs) with
    | some rest => some rest
    | none => dropThroughCI pat cs

/-- `_THINK_RE.sub("", text)`: repeatedly remove the leftmost
`<think>…</think>` block (shortest body — the scan stops at the first closing
marker); an opening marker with no subsequent closing marker stays.  One unit
of fuel is spent per removed block or copied character, so the input length
is always sufficient fuel. -/
def thinkSubAux : Nat → List Char → List Char
  | 0, s => s
  | _ + 1, [] => []
  | fuel + 1, c :: cs =>
    match matchCI thinkOpen (c :: cs) with
    | some afterOpen =>
      match dropThroughCI thinkClose afterOpen with
      | some rest => thinkSubAux fuel rest
      | none => c :: thinkSubAux fuel cs
    | none => c :: thinkSubAux fuel cs

def thinkSub (s : List Char) : List Char := thinkSubAux s.length s

/-- Split at the first occurrence of three backticks: `some (before, after)`,
or `none` when no fence closes. -/
def splitAtTicks : List Char → Option (List Char × List Char)
  | [] => none
  | c :: cs =>
    match matchCI fenceTicks (c :: cs) with
    | some rest => some ([], rest)
    | none =>
      match splitAtTicks cs with
      | some (pre, post) => some (c :: pre, post)
      | none => none

/-- `_FENCE_RE.search(text)` returning `group(1)`: at each start position try
three backticks, an optional `json` (the engine consumes it when present —
backtracking cannot help, since no closing fence can start inside the four
consumed letters), then capture up to the next three backticks; on failure
advance one position. -/
def fenceSearchAux : Nat → List Char → Option (List Char)
  | 0, _ => none
  | _ + 1, [] => none
  | fuel + 1, c :: cs =>
    match matchCI fenceTicks (c :: cs) with
    | some afterOpen =>
      match splitAtTicks (match matchCI jsonLit afterOpen with
        | some r => r
        | none => afterOpen) with
      | some (grp, _) => some grp
      | none => fenceSearchAux fuel cs
    | none => fenceSearchAux fuel cs

def fenceSearch (s : List Char) : Option (List Char) :=
  fenceSearchAux s.length s

/-- Python `text.replace` removing every byte-order mark U+FEFF. -/
def bomRemove (l : List Char) : List Char := l.filter (fun c => c != '\uFEFF')

/-- The character set of the final ``strip("` \n\r\t")``. -/
def trimSetChar (c : Char) : Bool :=
  c = '\u0060' || c = ' ' || c = '\n' || c = '\r' || c = '\t'

/-- Python `_clean_model_output`: remove think blocks and whitespace-strip;
keep only the first fenced block's body (whitespace-stripped) if a fence is
present; drop byte-order marks and trim backticks/whitespace from both
ends. -/
def cleanModelOutput (s : String) : String :=
  let t1 := pyStrip (thinkSub s.data)
  let t2 :=
    match fenceSearch t1 with
    | some g => pyStrip g
    | none => t1
  String.mk (stripBoth trimSetChar (bomRemove t2))

/-- C7 counterexample: three inputs on which sanitizing twice differs from
sanitizing once.  (1) removing an inner think block assembles a new one:
`<thi<think>x</think>nk>y</think>` cleans to `<think>y</think>`, which cleans
to the empty string; (2) `a\vBACKTICK`: the final trim exposes a vertical tab
that only the leading whitespace-strip of a second pass removes; (3) removing
a byte-order mark inside `<thi U+FEFF nk>y</think>` assembles a think block. -/
theorem cleanModelOutput_not_idempotent :
    (cleanModelOutput (cleanModelOutput "<thi<think>x</think>nk>y</think>")
      ≠ cleanModelOutput "<thi<think>x</think>nk>y</think>") ∧
    (cleanModelOutput (cleanModelOutput "a\u000B`")
      ≠ cleanModelOutput "a\u000B`") ∧
    (cleanModelOutput (cleanModelOutput "<thi\uFEFFnk>y</think>")
      ≠ cleanModelOutput "<thi\uFEFFnk>y</think>") := by
  refine ⟨by decide, by decide, by decide⟩

theorem toNat_lowerChar_upper {c : Char} (h1 : 'A' ≤ c) (h2 : c ≤ 'Z') :
    (lowerChar c).toNat = c.toNat + 32 := by
  have hle : c.toNat ≤ 90 := by
    have h3 := Char.le_def.mp h2
    simpa [Char.toNat] using h3
  have hvalid : (c.toNat + 32).isValidChar := Or.inl (by omega)
  unfold lowerChar
  rw [if_pos ⟨h1, h2⟩]
  unfold Char.ofNat
  rw [dif_pos hvalid]
  rfl

theorem toNat_mono {c d : Char} (h : c ≤ d) : c.toNat ≤ d.toNat := by
  have h2 := Char.le_def.mp h
  simpa [Char.toNat] using h2

/-- Lower-casing can only produce a lower-case letter or leave the character
unchanged, so hitting a non-letter target forces equality. -/
theorem lowerChar_eq_nonletter {c d : Char}
    (hd : d.toNat < 97 ∨ 122 < d.toNat) (h : lowerChar c = d) : c = d := by
  by_cases hA : 'A' ≤ c ∧ c ≤ 'Z'
  · exfalso
    have h1 := toNat_lowerChar_upper hA.1 hA.2
    rw [h] at h1
    have h2 := toNat_mono hA.1
    have h3 := toNat_mono hA.2
    have hA65 : ('A').toNat = 65 := by decide
    have hZ90 : ('Z').toNat = 90 := by decide
    rw [hA65] at h2
    rw [hZ90] at h3
    omega
  · unfold lowerChar at h
    rwa [if_neg hA] at h

theorem matchCI_head_none {c : Char} {cs : List Char} {p : Char}
    {ps : List Char} (h : lowerChar c ≠ p) :
    matchCI (p :: ps) (c :: cs) = none := by
  unfold matchCI
  rw [if_neg h]

/-- Think-block removal is the identity on inputs without `<`. -/
theorem thinkSubAux_id (fuel : Nat) :
    ∀ l : List Char, '<' ∉ l → thinkSubAux fuel l = l := by
  induction fuel with
  | zero => intro l _; rfl
  | succ n ih =>
    intro l hl
    cases l with
    | nil => rfl
    | cons c cs =>
      have hc : c ≠ '<' := fun hq => hl (hq ▸ List.mem_cons_self c cs)
      have hlow : lowerChar c ≠ '<' := fun hq =>
        hc (lowerChar_eq_nonletter (Or.inl (by decide)) hq)
      have hmatch : matchCI thinkOpen (c :: cs) = none := by
        unfold thinkOpen
        exact matchCI_head_none hlow
      unfold thinkSubAux
      simp only [hmatch]
      exact congrArg (c :: ·) (ih cs (fun hq => hl (List.mem_cons_of_mem c hq)))

/-- The fence search fails on inputs without backticks. -/
theorem fenceSearchAux_none (fuel : Nat) :
    ∀ l : List Char, '\u0060' ∉ l → fenceSearchAux fuel l = none := by
  induction fuel with
  | zero => intro l _; rfl
  | succ n ih =>
    intro l hl
    cases l with
    | nil => rfl
    | cons c cs =>
      have hc : c ≠ '\u0060' := fun hq => hl (hq ▸ List.mem_cons_self c cs)
      have hlow : lowerChar c ≠ '\u0060' := fun hq =>
        hc (lowerChar_eq_nonletter (Or.inl (by decide)) hq)
      have hmatch : matchCI fenceTicks (c :: cs) = none := by
        unfold fenceTicks
        exact matchCI_head_none hlow
      unfold fenceSearchAux
      simp only [hmatch]
      exact ih cs (fun hq => hl (List.mem_cons_of_mem c hq))

theorem dropWhile_subset {p : Char → Bool} {l : List Char} :
    ∀ x ∈ l.dropWhile p, x ∈ l := by
  induction l with
  | nil => intro x hx; exact hx
  | cons a as ih =>
    intro x hx
    rw [List.dropWhile_cons] at hx
    by_cases hp : p a = true
    · rw [if_pos hp] at hx
      exact List.mem_cons_of_mem a (ih x hx)
    · rw [if_neg hp] at hx
      exact hx

theorem mem_stripBoth {p : Char → Bool} {l : List Char} :
    ∀ x ∈ stripBoth p l, x ∈ l := by
  intro x hx
  unfold stripBoth at hx
  rw [List.mem_reverse] at hx
  have h1 := dropWhile_subset x hx
  rw [List.mem_reverse] at h1
  exact dropWhile_subset x h1

theorem matchCI_suffix (pat : List Char) : ∀ (s r : List Char),
    matchCI pat s = some r → r <:+ s := by
  induction pat with
  | nil =>
    intro s r h
    injection h with h
    rw [← h]
  | cons p ps ih =>
    intro s r h
    cases s with
    | nil => cases h
    | cons c cs =>
      unfold matchCI at h
      by_cases hc : lowerChar c = p
      · rw [if_pos hc] at h
        exact (ih cs r h).trans (List.suffix_cons c cs)
      · rw [if_neg hc] at h
        cases h

theorem dropThroughCI_suffix (pat : List Char) : ∀ (s r : List Char),
    dropThroughCI pat s = some r → r <:+ s := by
  intro s
  induction s with
  | nil => intro r h; cases h
  | cons c cs ih =>
    intro r h
    unfold dropThroughCI at h
    cases hm : matchCI pat (c :: cs) with
    | some rest =>
      rw [hm] at h
      injection h with h
      rw [← h]
      exact matchCI_suffix pat _ rest hm
    | none =>
      rw [hm] at h
      exact (ih r h).trans (List.suffix_cons c cs)

theorem mem_thinkSubAux (fuel : Nat) : ∀ (l : List Char),
    ∀ x ∈ thinkSubAux fuel l, x ∈ l := by
  induction fuel with
  | zero => intro l x hx; exact hx
  | succ n ih =>
    intro l x hx
    cases l with
    | nil => exact hx
    | cons c cs =>
      unfold thinkSubAux at hx
      cases hm : matchCI thinkOpen (c :: cs) with
      | some afterOpen =>
        simp only [hm] at hx
        cases hd : dropThroughCI thinkClose afterOpen with
        | some rest =>
          simp only [hd] at hx
          have h2 : rest <:+ c :: cs :=
            (dropThroughCI_suffix _ _ _ hd).trans (matchCI_suffix _ _ _ hm)
          exact h2.subset (ih rest x hx)
        | none =>
          simp only [hd] at hx
          rcases List.mem_cons.mp hx with rfl | hx2
          · exact List.mem_cons_self _ _
          · exact List.mem_cons_of_mem _ (ih cs x hx2)
      | none =>
        simp only [hm] at hx
        rcases List.mem_cons.mp hx with rfl | hx2
        · exact List.mem_cons_self _ _
        · exact List.mem_cons_of_mem _ (ih cs x hx2)

theorem dropWhile_head_false {p : Char → Bool} (l : List Char) :
    ∀ (c : Char) (cs : List Char), l.dropWhile p = c :: cs → p c = false := by
  induction l with
  | nil => intro c cs h; cases h
  | cons a as ih =>
    intro c cs h
    rw [List.dropWhile_cons] at h
    by_cases hp : p a = true
    · rw [if_pos hp] at h
      exact ih c cs h
    · rw [if_neg hp] at h
      injection h with h1 _
      rw [← h1]
      exact Bool.eq_false_iff.mpr hp

theorem getLast?_dropWhile (p : Char → Bool) :
    ∀ l : List Char, l.dropWhile p ≠ [] →
      (l.dropWhile p).getLast? = l.getLast? := by
  intro l
  induction l with
  | nil => intro h; exact absurd rfl h
  | cons a as ih =>
    intro h
    rw [List.dropWhile_cons] at h ⊢
    by_cases hp : p a = true
    · rw [if_pos hp] at h ⊢
      rw [ih h]
      have has : as ≠ [] := by
        intro hnil
        rw [hnil] at h
        exact h rfl
      cases as with
      | nil => exact absurd rfl has
      | cons b bs => rw [List.getLast?_cons_cons]
    · rw [if_neg hp]

/-- Stripping with a weaker character class is absorbed by a previous strip
with a stronger one (on the string's characters). -/
theorem stripBoth_absorb {p q : Char → Bool} (l : List Char)
    (himp : ∀ c ∈ stripBoth q l, p c = true → q c = true) :
    stripBoth p (stripBoth q l) = stripBoth q l := by
  by_cases hm : stripBoth q l = []
  · rw [hm]
    rfl
  · have hv : (stripBoth q l).reverse = ((l.dropWhile q).reverse).dropWhile q := by
      unfold stripBoth
      rw [List.reverse_reverse]
    obtain ⟨c, cs, hcons⟩ := List.exists_cons_of_ne_nil hm
    have hvne : ((l.dropWhile q).reverse).dropWhile q ≠ [] := by
      rw [← hv, hcons]
      simp
    have hune : l.dropWhile q ≠ [] := by
      intro h0
      rw [h0] at hvne
      exact hvne rfl
    obtain ⟨c0, cs0, hu⟩ := List.exists_cons_of_ne_nil hune
    have hqc0 : q c0 = false := dropWhile_head_false _ _ _ hu
    have hheads : (stripBoth q l).head? = (l.dropWhile q).head? := by
      have e1 : (stripBoth q l).head?
          = (((l.dropWhile q).reverse).dropWhile q).getLast? := by
        unfold stripBoth
        rw [List.head?_reverse]
      rw [e1, getLast?_dropWhile q _ hvne, List.getLast?_reverse]
    have hc : c = c0 := by
      have h2 := hheads
      rw [hcons, hu] at h2
      injection h2
    have hqc : q c = false := hc ▸ hqc0
    have hpc : p c = false := by
      cases hpcase : p c
      · rfl
      · exfalso
        have h3 := himp c (by rw [hcons]; exact List.mem_cons_self _ _) hpcase
        rw [hqc] at h3
        cases h3
    have hstep1 : (stripBoth q l).dropWhile p = stripBoth q l := by
      rw [hcons, List.dropWhile_cons, if_neg (by rw [hpc]; simp)]
    obtain ⟨c1, cs1, hvcons⟩ := List.exists_cons_of_ne_nil hvne
    have hqc1 : q c1 = false := dropWhile_head_false _ _ _ hvcons
    have hc1mem : c1 ∈ stripBoth q l := by
      rw [← List.mem_reverse, hv, hvcons]
      exact List.mem_cons_self _ _
    have hpc1 : p c1 = false := by
      cases hpcase : p c1
      · rfl
      · exfalso
        have h3 := himp c1 hc1mem hpcase
        rw [hqc1] at h3
        cases h3
    have hstep2 : (stripBoth q l).reverse.dropWhile p = (stripBoth q l).reverse := by
      rw [hv, hvcons, List.dropWhile_cons, if_neg (by rw [hpc1]; simp)]
    show (((stripBoth q l).dropWhile p).reverse.dropWhile p).reverse = stripBoth q l
    rw [hstep1, hstep2, List.reverse_reverse]

theorem data_mk (l : List Char) : (String.mk l).data = l := rfl

/-- C7 (amended): the sanitizer is idempotent on every input containing no
`<`, no backtick, no byte-order mark, and no whitespace characters beyond
space, tab, CR and LF (the characters the counterexamples exploit). -/
theorem cleanModelOutput_idempotent_on_plain (s : String)
    (h : ∀ c ∈ s.data, c ≠ '<' ∧ c ≠ '\u0060' ∧ c ≠ '\uFEFF' ∧
      (pyWsChar c = true → trimSetChar c = true)) :
    cleanModelOutput (cleanModelOutput s) = cleanModelOutput s := by
  have hlt : '<' ∉ s.data := fun hmem => ((h _ hmem).1) rfl
  have hbt : '\u0060' ∉ s.data := fun hmem => ((h _ hmem).2.1) rfl
  have hbomc : '\uFEFF' ∉ s.data := fun hmem => ((h _ hmem).2.2.1) rfl
  have hthink : thinkSub s.data = s.data := thinkSubAux_id _ _ hlt
  have ht1sub : ∀ x ∈ pyStrip s.data, x ∈ s.data := fun x hx => mem_stripBoth x hx
  have hfence : fenceSearch (pyStrip s.data) = none :=
    fenceSearchAux_none _ _ (fun hmem => hbt (ht1sub _ hmem))
  have hbomeq : bomRemove (pyStrip s.data) = pyStrip s.data := by
    apply List.filter_eq_self.mpr
    intro x hx
    simp only [bne_iff_ne, ne_eq]
    exact fun heq => hbomc (heq ▸ ht1sub _ hx)
  have hclean1 : cleanModelOutput s
      = String.mk (stripBoth trimSetChar (pyStrip s.data)) := by
    unfold cleanModelOutput
    simp only [hthink, hfence, hbomeq]
  set y := stripBoth trimSetChar (pyStrip s.data) with hy
  have hysub : ∀ x ∈ y, x ∈ s.data := fun x hx => ht1sub _ (mem_stripBoth x hx)
  have hlt2 : '<' ∉ y := fun hmem => hlt (hysub _ hmem)
  have hbt2 : '\u0060' ∉ y := fun hmem => hbt (hysub _ hmem)
  have hbom2 : '\uFEFF' ∉ y := fun hmem => hbomc (hysub _ hmem)
  have hthink2 : thinkSub y = y := thinkSubAux_id _ _ hlt2
  have hstrip2 : pyStrip y = y := by
    rw [hy]
    exact stripBoth_absorb (pyStrip s.data)
      (fun c hc hp => (h c (ht1sub _ (mem_stripBoth c hc))).2.2.2 hp)
  have hfence2 : fenceSearch y = none := fenceSearchAux_none _ _ hbt2
  have hbomeq2 : bomRemove y = y := by
    apply List.filter_eq_self.mpr
    intro x hx
    simp only [bne_iff_ne, ne_eq]
    exact fun heq => hbom2 (heq ▸ hx)
  have htrim2 : stripBoth trimSetChar y = y := by
    rw [hy]
    exact stripBoth_absorb (pyStrip s.data) (fun c _ hp => hp)
  rw [hclean1]
  unfold cleanModelOutput
  simp only [data_mk, hthink2, hstrip2, hfence2, hbomeq2, htrim2]

/-- C7 witness: idempotence on a concrete plain string, with the character
conditions checked by computation. -/
theorem cleanModelOutput_idempotent_on_plain_witness :
    cleanModelOutput (cleanModelOutput "  hello world\n")
      = cleanModelOutput "  hello world\n" :=
  cleanModelOutput_idempotent_on_plain "  hello world\n" (by decide)

/-! ## Grading endpoint (`_bool_from_text`, `grade_short_answer`, lines 695–706
and 807–891)

The database row behind `question_id` is a parameter (type, question text,
stored reference answer), and the provider interaction of the grading call is
a parameter too: either the call raised, or it returned some raw text.  The
embedded handler returns the `is_correct` boolean together with a flag
recording whether a provider call was issued. -/

def trueLit : List Char := ['t', 'r', 'u', 'e']

def falseLit : List Char := ['f', 'a', 'l', 's', 'e']

/-- Case-sensitive literal match at the head of the input. -/
def matchLit : List Char → List Char → Option (List Char)
  | [], s => some s
  | _ :: _, [] => none
  | p :: ps, c :: cs => if c = p then matchLit ps cs else none

/-- Python substring test (`pat in t`). -/
def containsSeq (pat : List Char) : List Char → Bool
  | [] => decide (pat = [])
  | c :: cs => (matchLit pat (c :: cs)).isSome || containsSeq pat cs

/-- Python `_bool_from_text`: clean, strip and lower-case the text, then look
for an unambiguous `true`/`false` substring, falling back to a prefix test. -/
def boolFromText (txt : String) : Option Bool :=
  let t := lowerList (pyStrip (cleanModelOutput txt).data)
  if containsSeq trueLit t && !containsSeq falseLit t then some true
  else if containsSeq falseLit t && !containsSeq trueLit t then some false
  else if (matchLit trueLit t).isSome then some true
  else if (matchLit falseLit t).isSome then some false
  else none

/-- Python `normalize_id` (inside `grade_short_answer`): lower-case, then keep
only `[a-z0-9]` characters. -/
def normalizeId (s : String) : List Char :=
  (s.data.map lowerChar).filter alnumLower

/-- The identification branch: correct iff both normalised forms are
non-empty and equal (`bool(student_norm and ref_norm and student_norm ==
ref_norm)`). -/
def identificationCorrect (student ref : String) : Bool :=
  let sn := normalizeId student
  let rn := normalizeId ref
  !sn.isEmpty && !rn.isEmpty && sn == rn

/-- The stored row for a question: its type, text and reference answer. -/
structure GradeRow where
  qtype : String
  text : String
  correct_answer : String

/-- Outcome of the provider grading call inside the handler. -/
inductive ProviderReply where
  | failed
  | replied (raw : String)

/-- Python `grade_short_answer` after the row is fetched (lines 830–891):
empty reference → incorrect without any provider call; identification →
exact normalised match without any provider call; essay/short_answer →
provider call, with the lexical fallback on failure or ambiguity.  The second
component records whether a provider call was issued. -/
def gradeShortAnswer (row : GradeRow) (student : String)
    (reply : ProviderReply) : Bool × Bool :=
  let ref := String.mk (pyStrip row.correct_answer.data)
  if ref = "" then (false, false)
  else if row.qtype = "identification" then
    (identificationCorrect student ref, false)
  else
    match reply with
    | ProviderReply.failed => (lexicalBackup student ref, true)
    | ProviderReply.replied raw =>
      match boolFromText raw with
      | some v => (v, true)
      | none => (lexicalBackup student ref, true)

/-- All-whitespace input strips to nothing. -/
theorem pyStrip_eq_nil (l : List Char) (h : ∀ c ∈ l, pyWsChar c = true) :
    pyStrip l = [] := by
  unfold pyStrip stripBoth
  have h1 : l.dropWhile pyWsChar = [] := List.dropWhile_eq_nil_iff.mpr h
  rw [h1]
  rfl

/-- C10: when the stored reference answer is empty or whitespace-only after
stripping, the grading endpoint answers `is_correct = false` and issues no
provider call, for every student answer, question type and provider
behaviour. -/
theorem gradeShortAnswer_empty_reference (row : GradeRow) (student : String)
    (reply : ProviderReply)
    (h : ∀ c ∈ row.correct_answer.data, pyWsChar c = true) :
    gradeShortAnswer row student reply = (false, false) := by
  unfold gradeShortAnswer
  rw [pyStrip_eq_nil _ h]
  rfl

/-- C10 witness: a whitespace-only reference graded for an essay row with a
failing provider. -/
theorem gradeShortAnswer_empty_reference_witness :
    gradeShortAnswer
      { qtype := "essay", text := "q", correct_answer := "  \n " }
      "any student answer" ProviderReply.failed = (false, false) :=
  gradeShortAnswer_empty_reference
    { qtype := "essay", text := "q", correct_answer := "  \n " }
    "any student answer" ProviderReply.failed (by decide)

/-- The row of the spec's identification example. -/
def mitoRow : GradeRow :=
  { qtype := "identification", text := "Which organelle?"
    correct_answer := "the Mitochondria!" }

/-- C3 counterexample: the claim says student `Mitochondria` against
reference `the Mitochondria!` is graded correct, but the code keeps the
article: the normalised forms are `mitochondria` and `themitochondria`, so
the endpoint answers incorrect (and makes no provider call). -/
theorem gradeIdentification_article_counterexample :
    gradeShortAnswer mitoRow "Mitochondria" ProviderReply.failed
      = (false, false) := by
  decide

/-- C3 (amended): identification grading lower-cases and strips all
non-alphanumeric characters from both sides and requires exact equality of
the non-empty results, with no provider call; under this rule both
`Mitochondria` and `Mitochondrion` are graded incorrect against
`the Mitochondria!` (the article survives normalisation), while
`Mitochondria` against `Mitochondria!` is correct. -/
theorem gradeIdentification_exact_normalized_equality :
    (∀ (row : GradeRow) (student : String) (reply : ProviderReply),
      row.qtype = "identification" →
      String.mk (pyStrip row.correct_answer.data) ≠ "" →
      (gradeShortAnswer row student reply).2 = false ∧
      ((gradeShortAnswer row student reply).1 = true ↔
        normalizeId student ≠ [] ∧
        normalizeId student
          = normalizeId (String.mk (pyStrip row.correct_answer.data)))) ∧
    (gradeShortAnswer mitoRow "Mitochondria" ProviderReply.failed).1 = false ∧
    (gradeShortAnswer mitoRow "Mitochondrion" ProviderReply.failed).1 = false ∧
    (gradeShortAnswer
      { qtype := "identification", text := "Which organelle?"
        correct_answer := "Mitochondria!" }
      "Mitochondria" ProviderReply.failed).1 = true := by
  refine ⟨?_, by decide, by decide, by decide⟩
  intro row student reply hq href
  unfold gradeShortAnswer
  rw [if_neg href, if_pos hq]
  refine ⟨rfl, ?_⟩
  unfold identificationCorrect
  simp only [Bool.and_eq_true, Bool.not_eq_true', List.isEmpty_eq_false,
    beq_iff_eq]
  constructor
  · rintro ⟨⟨hsn, -⟩, heq⟩
    exact ⟨hsn, heq⟩
  · rintro ⟨hsn, heq⟩
    refine ⟨⟨hsn, ?_⟩, heq⟩
    rw [← heq]
    exact hsn

/-- C3 witness: the amended theorem applied at the example row. -/
theorem gradeIdentification_exact_normalized_equality_witness :
    (gradeShortAnswer mitoRow "Mitochondria" ProviderReply.failed).2 = false ∧
    ((gradeShortAnswer mitoRow "Mitochondria" ProviderReply.failed).1 = true ↔
      normalizeId "Mitochondria" ≠ [] ∧
      normalizeId "Mitochondria"
        = normalizeId (String.mk (pyStrip mitoRow.correct_answer.data))) :=
  gradeIdentification_exact_normalized_equality.1 mitoRow "Mitochondria"
    ProviderReply.failed rfl (by decide)
